import Mathlib

/-!
Verification of the wikihow dataset preparation module
(`language_modeling_via_stochastic_processes/src/datasets/wikihow.py`).

The development shallowly embeds the document-to-sentence flattening
procedure (`WikihowDataset._process_data`) and the index-arithmetic
sampling strategies (`WikihowDiscourse.__getitem__`,
`WikihowTriplet.__getitem__`, `WikihowTPK.__getitem__`) as executable
Lean functions, and proves the documented invariants about them.

Python strings are modelled as Lean `String`; Python `int` index
arithmetic (which may go negative and wraps on list indexing) is
modelled with `Int` and an explicit Python-style list access `pyGet`.
The tokenizer is an external collaborator and is modelled as an
arbitrary token-counting function `tok : String → Nat`.
-/

/-- One flattened sentence record, as built by `_process_data`
(the dicts with keys sentence / sentence_id / doc_id /
total_doc_sentences). -/
structure SentenceInfo where
  sentence : String
  sentence_id : Nat
  doc_id : Nat
  total_doc_sentences : Nat
deriving DecidableEq

/-- Placeholder record used by the total list accessor `recAt`;
all theorems carry in-bounds hypotheses so it is never observed. -/
def defaultRec : SentenceInfo := ⟨"", 0, 0, 0⟩

/-- Total accessor for the flat record list (the in-bounds reading of
`self.processed_data[i]`). -/
def recAt (l : List SentenceInfo) (i : Nat) : SentenceInfo :=
  l.getD i defaultRec

/-- One raw step of a wikihow document: the value `v` in
`doc['steps'].items()`, with fields `section` (method name),
`summary` and `text`. -/
structure Step where
  «section» : String
  summary : String
  text : String
deriving DecidableEq

/-- One raw document of the corpus: `title` plus its steps in
iteration order of `doc['steps']`. -/
structure RawDoc where
  title : String
  steps : List Step
deriving DecidableEq

/-- Python `text.split(".  ")` for the fixed split pattern used by
`_process_data` (period, space, space): leftmost, non-overlapping,
with `[""]` on the empty string, on character lists. -/
def pySplitDots : List Char → List (List Char)
  | '.' :: ' ' :: ' ' :: rest => [] :: pySplitDots rest
  | c :: rest =>
    match pySplitDots rest with
    | [] => [[c]]
    | f :: fs => (c :: f) :: fs
  | [] => [[]]

/-- Python `s.replace('. . ', ' . ')`: every leftmost non-overlapping
occurrence of the four characters period-space-period-space is
rewritten to space-period-space. -/
def pyReplaceDots : List Char → List Char
  | '.' :: ' ' :: '.' :: ' ' :: rest => ' ' :: '.' :: ' ' :: pyReplaceDots rest
  | c :: rest => c :: pyReplaceDots rest
  | [] => []

/-- The mutation `sentences[-1] = sentences[-1].replace('. . ', ' . ')`
guarded by `sentences[-1].endswith(". . ")`: rewrite the last element
of the list when it ends with the duplicated delimiter. -/
def fixLast : List String → List String
  | [] => []
  | [s] =>
    [if ['.', ' ', '.', ' '].isSuffixOf s.data then String.mk (pyReplaceDots s.data) else s]
  | s :: rest => s :: fixLast rest

/-- The drop condition of the record loop: a sentence is kept unless it
is empty or equals the bare delimiter `" . "`. -/
def keepSentence (s : String) : Bool :=
  !(s == "") && !(s == " . ")

/-- `self.section_ids[0] + " " + doc['title'] + " . "`. -/
def titleSentence (title : String) : String :=
  "[ TITLE ]" ++ " " ++ title ++ " . "

/-- `self.section_ids[1] + " " + method_name + " . "`. -/
def methodSentence (methodName : String) : String :=
  "[ METHOD ]" ++ " " ++ methodName ++ " . "

/-- The directions sentence
`f"{self.section_ids[2]} {step_num} " + step['summary'][:-1] + " . "`. -/
def directionsSentence (stepNum : Nat) (st : Step) : String :=
  "[ STEP ]" ++ " " ++ toString stepNum ++ " " ++ String.mk st.summary.data.dropLast ++ " . "

/-- The step body sentences: `[_ + " . " for _ in step['text'].split(".  ")]`
followed by the guarded replace on the last element. -/
def stepBodySentences (st : Step) : List String :=
  fixLast ((pySplitDots st.text.data).map (fun f => String.mk f ++ " . "))

/-- The candidate sentence list of one (document, method) unit:
`all_sentences` as accumulated by the `for step_num, step in
enumerate(steps)` loop, starting from the title and method sentences. -/
def unitSentences (title methodName : String) (steps : List Step) : List String :=
  (List.enum steps).foldl
    (fun acc p => acc ++ (directionsSentence p.1 p.2 :: stepBodySentences p.2))
    [titleSentence title, methodSentence methodName]

/-- Spec-described collapse of the duplicated delimiter: only the
trailing occurrence `". . "` of the last fragment is collapsed to a
single delimiter `" . "` (claim C3's reading). Compare `fixLast`,
which replaces every occurrence inside the last fragment. -/
def specCollapseLast : List String → List String
  | [] => []
  | [s] =>
    [if ['.', ' ', '.', ' '].isSuffixOf s.data
     then String.mk (s.data.take (s.data.length - 4)) ++ " . " else s]
  | s :: rest => s :: specCollapseLast rest

/-- Step body sentences following the spec text of claim C3: split on
the literal `".  "`, suffix each fragment with `" . "`, then collapse
a trailing duplicated delimiter of the last fragment. -/
def specStepBodySentences (st : Step) : List String :=
  specCollapseLast ((pySplitDots st.text.data).map (fun f => String.mk f ++ " . "))

/-- The unit sentence list as described by the words of the spec /
claim C3: title sentence, method sentence, then per step the
directions sentence followed by the step body sentences, with the
trailing-only collapse. -/
def specUnitSentences (title methodName : String) (steps : List Step) : List String :=
  [titleSentence title, methodSentence methodName] ++
    (List.enum steps).flatMap (fun p => directionsSentence p.1 p.2 :: specStepBodySentences p.2)

/-- The unit sentence list as described by the spec, amended at the
collapse rule: every occurrence of `". . "` in the last fragment of a
step is replaced by `" . "` (when the fragment ends with `". . "`),
matching the source's use of `str.replace`. -/
def specUnitSentencesCollapseAll (title methodName : String) (steps : List Step) : List String :=
  [titleSentence title, methodSentence methodName] ++
    (List.enum steps).flatMap (fun p => directionsSentence p.1 p.2 :: stepBodySentences p.2)

/-- One insertion into the `defaultdict(list)` keyed by `v['section']`:
append to the existing group, or open a new group at the end. -/
def insertStep (acc : List (String × List Step)) (st : Step) : List (String × List Step) :=
  match acc with
  | [] => [(st.«section», [st])]
  | (k, ss) :: rest =>
    if k = st.«section» then (k, ss ++ [st]) :: rest
    else (k, ss) :: insertStep rest st

/-- `method2steps`: group the steps of a document by their `section`
field, preserving first-seen key order and step order inside a group
(Python dict iteration order). -/
def method2steps (steps : List Step) : List (String × List Step) :=
  steps.foldl insertStep []

/-- The record-building loop over one included unit: drop empty and
bare-delimiter sentences, number the survivors with consecutive
`sentence_id` starting at 0, stamp the current `doc_counter`, then
back-fill `total_doc_sentences` with the final `sentence_counter`. -/
def buildRecords (docCounter : Nat) (sentences : List String) : List SentenceInfo :=
  let kept := sentences.filter keepSentence
  (List.enum kept).map (fun p => ⟨p.2, p.1, docCounter, kept.length⟩)

/-- One iteration of the `for method_name, steps in method2steps.items()`
loop, on the accumulator (records so far, `doc_counter`): render the
unit, gate every sentence on `len(tokenizer(s)['input_ids']) < 1024`
(the constant is hard-coded, independent of the selected tokenizer
backend and of `self.max_length`), and on success append the unit's
records and increment the counter; on failure `continue` leaves the
accumulator untouched. -/
def processUnitStep (tok : String → Nat) (title : String)
    (acc : List SentenceInfo × Nat) (g : String × List Step) : List SentenceInfo × Nat :=
  let all_sentences := unitSentences title g.1 g.2
  if all_sentences.all (fun s => tok s < 1024) then
    (acc.1 ++ buildRecords acc.2 all_sentences, acc.2 + 1)
  else acc

/-- `WikihowDataset._process_data`: traverse the documents of the
configured slice in order, group each document's steps by method, and
process every (document, method) unit in traversal order, starting
from an empty record list and `doc_counter = 0`. -/
def processData (tok : String → Nat) (docs : List RawDoc) : List SentenceInfo :=
  (docs.foldl
    (fun acc doc => (method2steps doc.steps).foldl (processUnitStep tok doc.title) acc)
    ([], 0)).1

/-- The rendered units that pass the token-length gate, in traversal
order (functional characterization of which units contribute records). -/
def keptUnits (tok : String → Nat) (docs : List RawDoc) : List (List String) :=
  docs.flatMap fun doc =>
    ((method2steps doc.steps).map fun g => unitSentences doc.title g.1 g.2).filter
      (fun u => u.all fun s => tok s < 1024)

/-- Concatenation of the unit record blocks, numbering units from `d`. -/
def blocksFrom (d : Nat) : List (List String) → List SentenceInfo
  | [] => []
  | u :: us => buildRecords d u ++ blocksFrom (d + 1) us

/-- Structural invariant of the flat record sequence, as produced by
`_process_data`: every record knows its unit-relative position
(`sentence_id`), its unit occupies the contiguous index range
`[i - sentence_id, i - sentence_id + total_doc_sentences)` inside the
sequence with positions numbered `0 .. total-1` and a shared `doc_id`
and total; and two neighbouring records belong to the same unit
exactly when their `sentence_id`s are consecutive. -/
def FlatOk (l : List SentenceInfo) : Prop :=
  (∀ i, i < l.length →
    (recAt l i).sentence_id ≤ i ∧
    (recAt l i).sentence_id < (recAt l i).total_doc_sentences ∧
    i - (recAt l i).sentence_id + (recAt l i).total_doc_sentences ≤ l.length ∧
    (∀ p, p < (recAt l i).total_doc_sentences →
      (recAt l (i - (recAt l i).sentence_id + p)).doc_id = (recAt l i).doc_id ∧
      (recAt l (i - (recAt l i).sentence_id + p)).sentence_id = p ∧
      (recAt l (i - (recAt l i).sentence_id + p)).total_doc_sentences
        = (recAt l i).total_doc_sentences)) ∧
  (∀ i, i + 1 < l.length →
    ((recAt l (i + 1)).doc_id = (recAt l i).doc_id ↔
      (recAt l (i + 1)).sentence_id = (recAt l i).sentence_id + 1))

/-- Every unit of the flat sequence has at least three records (title,
method and first directions sentence always survive the drop filter). -/
def UnitsAtLeastThree (l : List SentenceInfo) : Prop :=
  ∀ i, i < l.length → 3 ≤ (recAt l i).total_doc_sentences

/-- `WikihowDataset.__len__`: `len(self.processed_data) - 1`, over the
Python integers. -/
def wikihowLen (l : List SentenceInfo) : Int :=
  (l.length : Int) - 1

/-- Python list access `l[i]` for `i` a Python int: non-negative
indices address from the front, negative indices wrap once from the
back, anything else raises (modelled as `none`). -/
def pyGet (l : List SentenceInfo) (i : Int) : Option SentenceInfo :=
  if 0 ≤ i then
    if i < (l.length : Int) then some (recAt l i.toNat) else none
  else
    if -(l.length : Int) ≤ i then some (recAt l (i + l.length).toNat) else none

/-- The label emitted by `WikihowDiscourse.__getitem__`: the scalar
draw itself, or `torch.zeros(2)` with a one at the drawn position when
`one_hot_labels` is configured. -/
inductive LabelOut where
  | scalar : Nat → LabelOut
  | vec : Nat → Nat → LabelOut
deriving DecidableEq

/-- The result dict of `WikihowDiscourse.__getitem__`. -/
structure DiscourseResult where
  y_t : String
  y_tp1 : String
  label : LabelOut
  idx : Nat
  t : Int
  tp1 : Int
deriving DecidableEq

/-- The window formula shared by the discourse strategy and the TPK
strategy with `k > 1`:
`tp1 = min(total_doc_sentences - 1, sentence_id + k)` and
`t = max(0, tp1 - k)`, over the Python integers. -/
def windowPair (utt : SentenceInfo) (k : Nat) : Int × Int :=
  let tp1 : Int := min ((utt.total_doc_sentences : Int) - 1) ((utt.sentence_id : Int) + (k : Int))
  let t : Int := max 0 (tp1 - (k : Int))
  (t, tp1)

/-- `WikihowDiscourse.__getitem__`, with the uniform binary draw
`random.randint(0, 1)` passed in as `label` (randomness is external).
The `assert y_t['doc_id'] == y_tp1['doc_id']` is modelled by returning
`none` when it would fire; out-of-range accesses are also `none`. -/
def discourseItem (l : List SentenceInfo) (k : Nat) (oneHot : Bool) (label : Nat)
    (index : Nat) : Option DiscourseResult :=
  match l.get? index with
  | none => none
  | some utt =>
    let t := (windowPair utt k).1
    let tp1 := (windowPair utt k).2
    let tPos : Int := (index : Int) + (t - (utt.sentence_id : Int))
    let tp1Pos : Int := (index : Int) + (tp1 - (utt.sentence_id : Int))
    match pyGet l tPos, pyGet l tp1Pos with
    | some yt, some ytp1 =>
      if yt.doc_id = ytp1.doc_id then
        some { y_t := if label ≠ 0 then yt.sentence else ytp1.sentence
               y_tp1 := if label ≠ 0 then ytp1.sentence else yt.sentence
               label := if oneHot then
                   LabelOut.vec (if label = 0 then 1 else 0) (if label = 1 then 1 else 0)
                 else LabelOut.scalar label
               idx := index
               t := tPos
               tp1 := tp1Pos }
      else none
    | _, _ => none

/-- The result dict of `WikihowTriplet.__getitem__`. -/
structure TripletResult where
  y_0 : String
  y_t : String
  y_T : String
  t_ : Nat
  t : Nat
  T : Nat
  total_t : Nat
deriving DecidableEq

/-- The initial advance of the triplet strategy: `index += 2` when the
record's `sentence_id` is 0, `index += 1` when it is 1 (both tests are
made against the record fetched before any advance). -/
def tripletAdvance (sentenceNum index : Nat) : Nat :=
  if sentenceNum = 0 then index + 2
  else if sentenceNum = 1 then index + 1
  else index

/-- `WikihowTriplet.__getitem__`, with the two `random.choice` draws
from `range(T)` (the second after removing the first) passed in as
`c1`, `c2`. The `assert t1 < t2 and t2 < T` is modelled by returning
`none` when it would fire. -/
def tripletItem (l : List SentenceInfo) (c1 c2 index : Nat) : Option TripletResult :=
  match l.get? index with
  | none => none
  | some utt0 =>
    let index := tripletAdvance utt0.sentence_id index
    match l.get? index with
    | none => none
    | some utt =>
      let T := utt.sentence_id
      let t1 := if c2 < c1 then c2 else c1
      let t2 := if c2 < c1 then c1 else c2
      if t1 < t2 ∧ t2 < T then
        match pyGet l ((index : Int) - (T : Int) + (t1 : Int)),
              pyGet l ((index : Int) - (T : Int) + (t2 : Int)) with
        | some y0, some yt =>
          some { y_0 := y0.sentence, y_t := yt.sentence, y_T := utt.sentence
                 t_ := t1, t := t2, T := T, total_t := utt.total_doc_sentences }
        | _, _ => none
      else none

/-- The result dict of `WikihowTPK.__getitem__` (the normalized
position `t` computed in the source is dead local state: it is not
part of the returned dict and is not modelled). -/
structure TPKResult where
  y_t : String
  y_tm1 : String
  y_tm2 : String
  y_tm3 : String
  y_tpk : String
deriving DecidableEq

/-- One backward-lag lookup of `WikihowTPK.__getitem__`:
`data[index]` when `index - lag < 0` or the record `lag` positions
back belongs to another unit, else `data[index - lag]`; `index` is a
Python int (it may have been decremented in the `k == 1` branch). -/
def tmLag (l : List SentenceInfo) (index : Int) (lag : Nat) : Option SentenceInfo :=
  match pyGet l index with
  | none => none
  | some cur =>
    if index - (lag : Int) < 0 then some cur
    else
      match pyGet l (index - (lag : Int)) with
      | none => none
      | some prev => if cur.doc_id ≠ prev.doc_id then some cur else some prev

/-- `WikihowTPK.__getitem__`. In the `k == 1` branch the index is
stepped back by one when the records at `index` and `index + 1` belong
to different units; for `k > 1` the shared window formula is used.
The three backward lags then use the (possibly stepped-back) index. -/
def tpkItem (l : List SentenceInfo) (k : Nat) (index : Nat) : Option TPKResult :=
  if k = 1 then
    match l.get? index, l.get? (index + 1) with
    | some r0, some r1 =>
      let idx : Int := if r0.doc_id ≠ r1.doc_id then (index : Int) - 1 else (index : Int)
      match pyGet l idx, pyGet l (idx + 1), tmLag l idx 1, tmLag l idx 2, tmLag l idx 3 with
      | some yt, some ytpk, some m1, some m2, some m3 =>
        some { y_t := yt.sentence, y_tm1 := m1.sentence, y_tm2 := m2.sentence
               y_tm3 := m3.sentence, y_tpk := ytpk.sentence }
      | _, _, _, _, _ => none
    | _, _ => none
  else
    match l.get? index with
    | none => none
    | some utt =>
      let t := (windowPair utt k).1
      let tp1 := (windowPair utt k).2
      match pyGet l ((index : Int) + (t - (utt.sentence_id : Int))),
            pyGet l ((index : Int) + (tp1 - (utt.sentence_id : Int))),
            tmLag l index 1, tmLag l index 2, tmLag l index 3 with
      | some yt, some ytpk, some m1, some m2, some m3 =>
        some { y_t := yt.sentence, y_tm1 := m1.sentence, y_tm2 := m2.sentence
               y_tm3 := m3.sentence, y_tpk := ytpk.sentence }
      | _, _, _, _, _ => none

/-- Modelled from the spec: the process-wide generator of the Python
`random` module (an external collaborator) is modelled as the stream
of outcomes it will produce; a draw consumes the head. Calling
`random.seed(s)` would replace the stream by one determined by `s`
alone; the point of claim C9 is that the source never calls it. -/
def RNGState := List Nat

/-- The effect of `WikihowDataset.__init__` (lines 13-37) on the
`random` module state: the constructor stores `self.seed = seed` but
contains no `random.seed` call, so the generator state is untouched
and the stored seed is unused. -/
def wikihowInitRNG (seed : Nat) (g : RNGState) : RNGState := g

/-- Modelled from the spec: `random.randint(0, 1)` draws the next
outcome of the process-wide generator stream as a bit. -/
def drawRandint01 (g : RNGState) : Nat × RNGState :=
  match g with
  | [] => (0, [])
  | x :: rest => (x % 2, rest)

/-- The label obtained by the first `WikihowDiscourse.__getitem__`
call after constructing the dataset with `seed`, in a process whose
ambient generator state is `g`. -/
def discourseLabelDraw (seed : Nat) (g : RNGState) : Nat :=
  (drawRandint01 (wikihowInitRNG seed g)).1

/-- A token counter accepting everything (used for concrete witnesses). -/
def tokZero : String → Nat := fun _ => 0

/-- A token counter rejecting everything (used for concrete witnesses). -/
def tokBig : String → Nat := fun _ => 2000

/-- Concrete witness corpus: one document with one method of two
steps, and a second document with a single-step method. -/
def docsW : List RawDoc :=
  [⟨"Make Tea", [⟨"Boil Water", "Pour!", "Fill pot.  Heat."⟩,
                 ⟨"Boil Water", "Wait!", "Sit."⟩]⟩,
   ⟨"X", [⟨"M2", "Go!", "Run."⟩]⟩]

/-- The flattened record sequence of the witness corpus. -/
def flatW : List SentenceInfo := processData tokZero docsW

/-! ### Helper lemmas: list access and unit blocks -/

theorem recAt_append_left {B R : List SentenceInfo} {i : Nat} (h : i < B.length) :
    recAt (B ++ R) i = recAt B i := by
  unfold recAt
  exact List.getD_append B R defaultRec i h

theorem recAt_append_right {B R : List SentenceInfo} {i : Nat} (h : B.length ≤ i) :
    recAt (B ++ R) i = recAt R (i - B.length) := by
  unfold recAt
  exact List.getD_append_right B R defaultRec i h

theorem recAt_eq_getElem {l : List SentenceInfo} {i : Nat} (h : i < l.length) :
    recAt l i = l[i] := by
  unfold recAt
  exact List.getD_eq_getElem l defaultRec h

theorem recAt_mem {l : List SentenceInfo} {i : Nat} (h : i < l.length) :
    recAt l i ∈ l := by
  rw [recAt_eq_getElem h]
  exact List.getElem_mem h

theorem buildRecords_length (d : Nat) (u : List String) :
    (buildRecords d u).length = (u.filter keepSentence).length := by
  simp [buildRecords]

theorem buildRecords_fields (d : Nat) (u : List String) :
    ∀ j, j < (buildRecords d u).length →
      (recAt (buildRecords d u) j).sentence_id = j ∧
      (recAt (buildRecords d u) j).doc_id = d ∧
      (recAt (buildRecords d u) j).total_doc_sentences = (u.filter keepSentence).length := by
  intro j hj
  rw [recAt_eq_getElem hj]
  unfold buildRecords
  simp only [List.getElem_map, List.getElem_enum]
  exact ⟨trivial, trivial, trivial⟩

theorem mem_buildRecords {d : Nat} {u : List String} {r : SentenceInfo}
    (h : r ∈ buildRecords d u) :
    r.doc_id = d ∧ r.total_doc_sentences = (u.filter keepSentence).length ∧
      r.sentence ∈ u.filter keepSentence := by
  unfold buildRecords at h
  rw [List.mem_map] at h
  obtain ⟨p, hp, rfl⟩ := h
  refine ⟨rfl, rfl, ?_⟩
  rw [List.mem_iff_getElem] at hp
  obtain ⟨j, hj, hpj⟩ := hp
  rw [List.getElem_enum] at hpj
  have hj' : j < (u.filter keepSentence).length := by simpa using hj
  rw [← hpj]
  exact List.getElem_mem hj'

theorem blocksFrom_nil (d : Nat) : blocksFrom d [] = [] := rfl

theorem blocksFrom_cons (d : Nat) (u : List String) (us : List (List String)) :
    blocksFrom d (u :: us) = buildRecords d u ++ blocksFrom (d + 1) us := rfl

theorem blocksFrom_append (xs ys : List (List String)) :
    ∀ d, blocksFrom d (xs ++ ys) = blocksFrom d xs ++ blocksFrom (d + xs.length) ys := by
  induction xs with
  | nil => intro d; simp [blocksFrom]
  | cons x xs ih =>
    intro d
    rw [List.cons_append, blocksFrom_cons, ih (d + 1), blocksFrom_cons, List.append_assoc]
    have h : d + 1 + xs.length = d + (x :: xs).length := by
      simp only [List.length_cons]
      omega
    rw [h]

theorem foldl_processUnitStep (tok : String → Nat) (title : String) :
    ∀ (gs : List (String × List Step)) (acc : List SentenceInfo × Nat),
      gs.foldl (processUnitStep tok title) acc =
        (acc.1 ++ blocksFrom acc.2
            (((gs.map fun g => unitSentences title g.1 g.2).filter
              (fun u => u.all fun s => tok s < 1024))),
         acc.2 + ((gs.map fun g => unitSentences title g.1 g.2).filter
              (fun u => u.all fun s => tok s < 1024)).length) := by
  intro gs
  induction gs with
  | nil => intro acc; simp [blocksFrom]
  | cons g gs ih =>
    intro acc
    rw [List.foldl_cons]
    by_cases hg : ((unitSentences title g.1 g.2).all fun s => tok s < 1024) = true
    · have hstep : processUnitStep tok title acc g =
          (acc.1 ++ buildRecords acc.2 (unitSentences title g.1 g.2), acc.2 + 1) := by
        unfold processUnitStep
        rw [if_pos hg]
      have hf : ((g :: gs).map fun g => unitSentences title g.1 g.2).filter
            (fun u => u.all fun s => tok s < 1024) =
          unitSentences title g.1 g.2 ::
            ((gs.map fun g => unitSentences title g.1 g.2).filter
              (fun u => u.all fun s => tok s < 1024)) := by
        simp only [List.map_cons, List.filter_cons, hg, if_true]
      rw [hstep, ih, hf, blocksFrom_cons]
      simp only [Prod.mk.injEq, List.length_cons]
      exact ⟨by rw [List.append_assoc], by omega⟩
    · have hstep : processUnitStep tok title acc g = acc := by
        unfold processUnitStep
        rw [if_neg hg]
      have hf : ((g :: gs).map fun g => unitSentences title g.1 g.2).filter
            (fun u => u.all fun s => tok s < 1024) =
          (gs.map fun g => unitSentences title g.1 g.2).filter
            (fun u => u.all fun s => tok s < 1024) := by
        simp only [List.map_cons, List.filter_cons]
        rw [if_neg hg]
      rw [hstep, ih, hf]

theorem keptUnits_cons (tok : String → Nat) (doc : RawDoc) (docs : List RawDoc) :
    keptUnits tok (doc :: docs) =
      ((method2steps doc.steps).map fun g => unitSentences doc.title g.1 g.2).filter
          (fun u => u.all fun s => tok s < 1024) ++ keptUnits tok docs := by
  simp [keptUnits]

theorem processData_foldl (tok : String → Nat) :
    ∀ (docs : List RawDoc) (acc : List SentenceInfo × Nat),
      docs.foldl
        (fun acc doc => (method2steps doc.steps).foldl (processUnitStep tok doc.title) acc) acc =
      (acc.1 ++ blocksFrom acc.2 (keptUnits tok docs),
       acc.2 + (keptUnits tok docs).length) := by
  intro docs
  induction docs with
  | nil => intro acc; simp [keptUnits, blocksFrom]
  | cons doc docs ih =>
    intro acc
    rw [List.foldl_cons, foldl_processUnitStep tok doc.title (method2steps doc.steps) acc, ih]
    rw [keptUnits_cons, blocksFrom_append]
    dsimp only
    simp only [Prod.mk.injEq, List.length_append]
    exact ⟨by rw [List.append_assoc], by omega⟩

theorem processData_eq (tok : String → Nat) (docs : List RawDoc) :
    processData tok docs = blocksFrom 0 (keptUnits tok docs) := by
  unfold processData
  rw [processData_foldl]
  rfl

/-! ### The flattening invariant -/

theorem mem_blocksFrom_doc_ge :
    ∀ (us : List (List String)) (d : Nat) (r : SentenceInfo),
      r ∈ blocksFrom d us → d ≤ r.doc_id := by
  intro us
  induction us with
  | nil => intro d r hr; simp [blocksFrom] at hr
  | cons u us ih =>
    intro d r hr
    rw [blocksFrom_cons, List.mem_append] at hr
    rcases hr with hr | hr
    · rw [(mem_buildRecords hr).1]
    · exact le_trans (by omega) (ih (d + 1) r hr)

theorem flatOk_block_append {d : Nat} {B R : List SentenceInfo}
    (hB : ∀ j, j < B.length →
      (recAt B j).sentence_id = j ∧ (recAt B j).doc_id = d ∧
      (recAt B j).total_doc_sentences = B.length)
    (hR : FlatOk R) (hRd : ∀ r ∈ R, d < r.doc_id) :
    FlatOk (B ++ R) := by
  obtain ⟨hR1, hR2⟩ := hR
  constructor
  · intro i hi
    rw [List.length_append] at hi
    by_cases hiB : i < B.length
    · have hrec : recAt (B ++ R) i = recAt B i := recAt_append_left hiB
      obtain ⟨hs, hd, ht⟩ := hB i hiB
      rw [hrec, hs, ht]
      refine ⟨le_refl i, hiB, by rw [List.length_append]; omega, ?_⟩
      intro p hp
      have hip : i - i + p = p := by omega
      rw [hip, recAt_append_left hp]
      obtain ⟨hs', hd', ht'⟩ := hB p hp
      rw [hs', hd', ht', hd]
      exact ⟨rfl, rfl, rfl⟩
    · have hBle : B.length ≤ i := le_of_not_lt hiB
      have hrec : recAt (B ++ R) i = recAt R (i - B.length) := recAt_append_right hBle
      have hiR : i - B.length < R.length := by omega
      obtain ⟨hs, hst, hlen, hall⟩ := hR1 (i - B.length) hiR
      rw [hrec]
      refine ⟨by omega, hst, by rw [List.length_append]; omega, ?_⟩
      intro p hp
      have h2 : B.length ≤ i - (recAt R (i - B.length)).sentence_id + p := by omega
      rw [recAt_append_right h2]
      have h3 : i - (recAt R (i - B.length)).sentence_id + p - B.length =
          i - B.length - (recAt R (i - B.length)).sentence_id + p := by omega
      rw [h3]
      exact hall p hp
  · intro i hi
    rw [List.length_append] at hi
    by_cases h1 : i + 1 < B.length
    · have e1 : recAt (B ++ R) i = recAt B i := recAt_append_left (show i < B.length by omega)
      have e2 : recAt (B ++ R) (i + 1) = recAt B (i + 1) := recAt_append_left h1
      obtain ⟨hsI, hdI, _⟩ := hB i (by omega)
      obtain ⟨hsI1, hdI1, _⟩ := hB (i + 1) h1
      rw [e1, e2, hdI, hdI1, hsI, hsI1]
      simp
    · by_cases h2 : i + 1 = B.length
      · have hiB : i < B.length := by omega
        have hR0 : 0 < R.length := by omega
        have e1 : recAt (B ++ R) i = recAt B i := recAt_append_left hiB
        have e2 : recAt (B ++ R) (i + 1) = recAt R 0 := by
          rw [recAt_append_right (by omega)]
          congr 1
          omega
        obtain ⟨hsI, hdI, _⟩ := hB i hiB
        have hdR : d < (recAt R 0).doc_id := hRd _ (recAt_mem hR0)
        have hsR : (recAt R 0).sentence_id = 0 := by
          have := (hR1 0 hR0).1
          omega
        rw [e1, e2, hdI, hsI]
        constructor
        · intro h; omega
        · intro h; omega
      · have hBi : B.length ≤ i := by omega
        have e1 : recAt (B ++ R) i = recAt R (i - B.length) := recAt_append_right hBi
        have e2 : recAt (B ++ R) (i + 1) = recAt R (i + 1 - B.length) :=
          recAt_append_right (show B.length ≤ i + 1 by omega)
        have h3 : i + 1 - B.length = (i - B.length) + 1 := by omega
        rw [e1, e2, h3]
        exact hR2 (i - B.length) (by omega)

theorem flatOk_blocksFrom : ∀ (us : List (List String)) (d : Nat), FlatOk (blocksFrom d us) := by
  intro us
  induction us with
  | nil =>
    intro d
    constructor
    · intro i hi; simp [blocksFrom] at hi
    · intro i hi; simp [blocksFrom] at hi
  | cons u us ih =>
    intro d
    rw [blocksFrom_cons]
    apply flatOk_block_append
    · intro j hj
      obtain ⟨h1, h2, h3⟩ := buildRecords_fields d u j hj
      exact ⟨h1, h2, by rw [h3, buildRecords_length]⟩
    · exact ih (d + 1)
    · intro r hr
      have := mem_blocksFrom_doc_ge us (d + 1) r hr
      omega

/-- The flattening invariant holds of every constructed dataset. -/
theorem flatOk_processData (tok : String → Nat) (docs : List RawDoc) :
    FlatOk (processData tok docs) := by
  rw [processData_eq]
  exact flatOk_blocksFrom _ 0

theorem blocksFrom_doc_mono :
    ∀ (us : List (List String)) (d : Nat) (i j : Nat), i ≤ j →
      j < (blocksFrom d us).length →
      (recAt (blocksFrom d us) i).doc_id ≤ (recAt (blocksFrom d us) j).doc_id := by
  intro us
  induction us with
  | nil => intro d i j _ hj; simp [blocksFrom] at hj
  | cons u us ih =>
    intro d i j hij hj
    rw [blocksFrom_cons] at hj ⊢
    rw [List.length_append] at hj
    by_cases hjB : j < (buildRecords d u).length
    · have hiB : i < (buildRecords d u).length := lt_of_le_of_lt hij hjB
      rw [recAt_append_left hiB, recAt_append_left hjB,
        (buildRecords_fields d u i hiB).2.1, (buildRecords_fields d u j hjB).2.1]
    · have hBj : (buildRecords d u).length ≤ j := le_of_not_lt hjB
      rw [recAt_append_right hBj]
      have hjR : j - (buildRecords d u).length < (blocksFrom (d + 1) us).length := by omega
      have hdj : d + 1 ≤ (recAt (blocksFrom (d + 1) us) (j - (buildRecords d u).length)).doc_id :=
        mem_blocksFrom_doc_ge us (d + 1) _ (recAt_mem hjR)
      by_cases hiB : i < (buildRecords d u).length
      · rw [recAt_append_left hiB, (buildRecords_fields d u i hiB).2.1]
        omega
      · rw [recAt_append_right (le_of_not_lt hiB)]
        exact ih (d + 1) _ _ (by omega) hjR

theorem processData_doc_mono (tok : String → Nat) (docs : List RawDoc) {i j : Nat}
    (hij : i ≤ j) (hj : j < (processData tok docs).length) :
    (recAt (processData tok docs) i).doc_id ≤ (recAt (processData tok docs) j).doc_id := by
  rw [processData_eq] at hj ⊢
  exact blocksFrom_doc_mono _ 0 i j hij hj

/-! ### Units always keep at least three sentences -/

theorem keepSentence_of_length {s : String} (h0 : s.length ≠ 0) (h3 : s.length ≠ 3) :
    keepSentence s = true := by
  have h1 : s ≠ "" := fun he => h0 (by rw [he]; rfl)
  have h2 : s ≠ " . " := fun he => h3 (by rw [he]; rfl)
  simp [keepSentence, h1, h2]

theorem titleSentence_length (title : String) :
    (titleSentence title).length = 13 + title.length := by
  unfold titleSentence
  rw [String.length_append, String.length_append, String.length_append]
  have h1 : ("[ TITLE ]" : String).length = 9 := rfl
  have h2 : (" " : String).length = 1 := rfl
  have h3 : (" . " : String).length = 3 := rfl
  omega

theorem methodSentence_length (m : String) :
    (methodSentence m).length = 14 + m.length := by
  unfold methodSentence
  rw [String.length_append, String.length_append, String.length_append]
  have h1 : ("[ METHOD ]" : String).length = 10 := rfl
  have h2 : (" " : String).length = 1 := rfl
  have h3 : (" . " : String).length = 3 := rfl
  omega

theorem directionsSentence_length (stepNum : Nat) (st : Step) :
    (directionsSentence stepNum st).length =
      13 + (toString stepNum).length + st.summary.data.dropLast.length := by
  unfold directionsSentence
  rw [String.length_append, String.length_append, String.length_append,
    String.length_append, String.length_append]
  have h1 : ("[ STEP ]" : String).length = 8 := rfl
  have h2 : (" " : String).length = 1 := rfl
  have h3 : (" . " : String).length = 3 := rfl
  have h4 : (String.mk st.summary.data.dropLast).length = st.summary.data.dropLast.length := rfl
  omega

theorem keep_titleSentence (title : String) : keepSentence (titleSentence title) = true :=
  keepSentence_of_length (by rw [titleSentence_length]; omega)
    (by rw [titleSentence_length]; omega)

theorem keep_methodSentence (m : String) : keepSentence (methodSentence m) = true :=
  keepSentence_of_length (by rw [methodSentence_length]; omega)
    (by rw [methodSentence_length]; omega)

theorem keep_directionsSentence (stepNum : Nat) (st : Step) :
    keepSentence (directionsSentence stepNum st) = true :=
  keepSentence_of_length (by rw [directionsSentence_length]; omega)
    (by rw [directionsSentence_length]; omega)

theorem foldl_append_flatMap {α β : Type} (f : α → List β) :
    ∀ (xs : List α) (init : List β),
      xs.foldl (fun acc x => acc ++ f x) init = init ++ xs.flatMap f := by
  intro xs
  induction xs with
  | nil => intro init; simp
  | cons x xs ih =>
    intro init
    rw [List.foldl_cons, ih, List.flatMap_cons, List.append_assoc]

theorem unitSentences_eq (title m : String) (steps : List Step) :
    unitSentences title m steps = specUnitSentencesCollapseAll title m steps := by
  unfold unitSentences specUnitSentencesCollapseAll
  exact foldl_append_flatMap _ _ _

theorem insertStep_ne_nil {acc : List (String × List Step)} {st : Step}
    (h : ∀ g ∈ acc, g.2 ≠ []) : ∀ g ∈ insertStep acc st, g.2 ≠ [] := by
  induction acc with
  | nil =>
    intro g hg
    unfold insertStep at hg
    rw [List.mem_singleton] at hg
    subst hg
    simp
  | cons a rest ih =>
    intro g hg
    obtain ⟨k, ss⟩ := a
    unfold insertStep at hg
    by_cases hk : k = st.«section»
    · rw [if_pos hk] at hg
      rcases List.mem_cons.mp hg with hg | hg
      · subst hg; simp
      · exact h g (List.mem_cons_of_mem _ hg)
    · rw [if_neg hk] at hg
      rcases List.mem_cons.mp hg with hg | hg
      · subst hg; exact h (k, ss) (List.mem_cons_self _ _)
      · exact ih (fun g' hg' => h g' (List.mem_cons_of_mem _ hg')) g hg

theorem foldl_insertStep_ne_nil :
    ∀ (steps : List Step) (acc : List (String × List Step)),
      (∀ g ∈ acc, g.2 ≠ []) → ∀ g ∈ steps.foldl insertStep acc, g.2 ≠ [] := by
  intro steps
  induction steps with
  | nil => intro acc h; exact h
  | cons st steps ih =>
    intro acc h
    rw [List.foldl_cons]
    exact ih _ (insertStep_ne_nil h)

theorem method2steps_ne_nil (steps : List Step) :
    ∀ g ∈ method2steps steps, g.2 ≠ [] :=
  foldl_insertStep_ne_nil steps [] (by intro g hg; simp at hg)

theorem unit_filter_three (title m : String) (steps : List Step) (hs : steps ≠ []) :
    3 ≤ ((unitSentences title m steps).filter keepSentence).length := by
  rw [unitSentences_eq]
  unfold specUnitSentencesCollapseAll
  obtain ⟨s0, ss, rfl⟩ := List.exists_cons_of_ne_nil hs
  rw [List.enum_cons, List.flatMap_cons]
  have hshape :
      [titleSentence title, methodSentence m] ++
        ((directionsSentence 0 s0 :: stepBodySentences s0) ++
          (List.enumFrom 1 ss).flatMap
            (fun p => directionsSentence p.1 p.2 :: stepBodySentences p.2)) =
      titleSentence title :: methodSentence m :: directionsSentence 0 s0 ::
        (stepBodySentences s0 ++
          (List.enumFrom 1 ss).flatMap
            (fun p => directionsSentence p.1 p.2 :: stepBodySentences p.2)) := by
    simp
  rw [hshape, List.filter_cons, List.filter_cons, List.filter_cons,
    keep_titleSentence, keep_methodSentence, keep_directionsSentence]
  simp only [if_true, List.length_cons]
  omega

theorem unitsAtLeastThree_blocksFrom :
    ∀ (us : List (List String)), (∀ u ∈ us, 3 ≤ (u.filter keepSentence).length) →
      ∀ d, UnitsAtLeastThree (blocksFrom d us) := by
  intro us
  induction us with
  | nil => intro _ d i hi; simp [blocksFrom] at hi
  | cons u us ih =>
    intro h d i hi
    rw [blocksFrom_cons] at hi ⊢
    rw [List.length_append] at hi
    by_cases hiB : i < (buildRecords d u).length
    · rw [recAt_append_left hiB, (buildRecords_fields d u i hiB).2.2]
      exact h u (List.mem_cons_self _ _)
    · rw [recAt_append_right (le_of_not_lt hiB)]
      exact ih (fun v hv => h v (List.mem_cons_of_mem _ hv)) (d + 1) _ (by omega)

theorem keptUnits_filter_three (tok : String → Nat) (docs : List RawDoc) :
    ∀ u ∈ keptUnits tok docs, 3 ≤ (u.filter keepSentence).length := by
  intro u hu
  unfold keptUnits at hu
  rw [List.mem_flatMap] at hu
  obtain ⟨doc, _, hu⟩ := hu
  rw [List.mem_filter] at hu
  obtain ⟨hu, _⟩ := hu
  rw [List.mem_map] at hu
  obtain ⟨g, hg, rfl⟩ := hu
  exact unit_filter_three doc.title g.1 g.2 (method2steps_ne_nil doc.steps g hg)

/-- Every unit of a constructed dataset keeps at least its title,
method, and first directions sentence. -/
theorem unitsAtLeastThree_processData (tok : String → Nat) (docs : List RawDoc) :
    UnitsAtLeastThree (processData tok docs) := by
  rw [processData_eq]
  exact unitsAtLeastThree_blocksFrom _ (keptUnits_filter_three tok docs) 0

/-! ### Records of one doc_id -/

theorem filter_buildRecords_self (d : Nat) (u : List String) :
    (buildRecords d u).filter (fun r => r.doc_id == d) = buildRecords d u := by
  rw [List.filter_eq_self]
  intro r hr
  have := (mem_buildRecords hr).1
  simpa using this

theorem filter_buildRecords_ne {d q : Nat} (u : List String) (h : q ≠ d) :
    (buildRecords d u).filter (fun r => r.doc_id == q) = [] := by
  rw [List.filter_eq_nil_iff]
  intro r hr
  have := (mem_buildRecords hr).1
  simp only [beq_iff_eq, this]
  omega

theorem filter_blocksFrom_ge {us : List (List String)} {d q : Nat} (h : q < d) :
    (blocksFrom d us).filter (fun r => r.doc_id == q) = [] := by
  rw [List.filter_eq_nil_iff]
  intro r hr
  have := mem_blocksFrom_doc_ge us d r hr
  simp only [beq_iff_eq]
  omega

theorem filter_blocksFrom (us : List (List String)) :
    ∀ d q, (blocksFrom d us).filter (fun r => r.doc_id == q) =
      if d ≤ q ∧ q - d < us.length then buildRecords q (us.getD (q - d) []) else [] := by
  induction us with
  | nil =>
    intro d q
    have hc : ¬(d ≤ q ∧ q - d < ([] : List (List String)).length) := by simp
    rw [if_neg hc]
    simp [blocksFrom]
  | cons u us ih =>
    intro d q
    rw [blocksFrom_cons, List.filter_append]
    by_cases hq : q = d
    · subst hq
      rw [filter_buildRecords_self, filter_blocksFrom_ge (by omega),
        if_pos ⟨le_refl q, by simp⟩]
      simp
    · rw [filter_buildRecords_ne u hq, List.nil_append, ih (d + 1) q]
      by_cases hlt : q < d
      · have hc1 : ¬(d + 1 ≤ q ∧ q - (d + 1) < us.length) := by omega
        have hc2 : ¬(d ≤ q ∧ q - d < (u :: us).length) := by omega
        rw [if_neg hc1, if_neg hc2]
      · have hdq : d + 1 ≤ q := by omega
        have he : q - d = (q - (d + 1)) + 1 := by omega
        by_cases hin : q - (d + 1) < us.length
        · rw [if_pos ⟨hdq, hin⟩, if_pos ⟨by omega, by simp only [List.length_cons]; omega⟩, he,
            List.getD_cons_succ]
        · have hc1 : ¬(d + 1 ≤ q ∧ q - (d + 1) < us.length) := fun hh => hin hh.2
          have hc2 : ¬(d ≤ q ∧ q - d < (u :: us).length) := by
            simp only [List.length_cons]
            omega
          rw [if_neg hc1, if_neg hc2]

theorem buildRecords_map_sid (d : Nat) (u : List String) :
    (buildRecords d u).map SentenceInfo.sentence_id =
      List.range (u.filter keepSentence).length := by
  unfold buildRecords
  rw [List.map_map]
  exact List.enum_map_fst _

/-- Claim C1: in every constructed dataset the records sharing a
`doc_id` are a contiguous run, their `sentence_id` values are exactly
`0 .. n-1` in ascending order, and each such record's
`total_doc_sentences` equals `n`, where `n` is the number of records
with that `doc_id`. -/
theorem claim1_unit_structure (tok : String → Nat) (docs : List RawDoc) (d : Nat) :
    (((processData tok docs).filter (fun r => r.doc_id == d)).map SentenceInfo.sentence_id =
      List.range ((processData tok docs).filter (fun r => r.doc_id == d)).length) ∧
    (∀ r ∈ (processData tok docs).filter (fun r => r.doc_id == d),
      r.total_doc_sentences =
        ((processData tok docs).filter (fun r => r.doc_id == d)).length) ∧
    (∀ i p j, i ≤ p → p ≤ j → j < (processData tok docs).length →
      (recAt (processData tok docs) i).doc_id = d →
      (recAt (processData tok docs) j).doc_id = d →
      (recAt (processData tok docs) p).doc_id = d) := by
  refine ⟨?_, ?_, ?_⟩
  · rw [processData_eq, filter_blocksFrom]
    split
    · rw [buildRecords_map_sid, buildRecords_length]
    · simp
  · rw [processData_eq, filter_blocksFrom]
    split
    · intro r hr
      rw [(mem_buildRecords hr).2.1, buildRecords_length]
    · intro r hr
      simp at hr
  · intro i p j hip hpj hj hdi hdj
    have h1 := processData_doc_mono tok docs hip (lt_of_le_of_lt hpj hj)
    have h2 := processData_doc_mono tok docs hpj hj
    omega

/-- Witness for claim C1 at a concrete corpus, document id, and index
triple. -/
theorem claim1_witness :
    (((processData tokZero docsW).filter (fun r => r.doc_id == 0)).map SentenceInfo.sentence_id
      = List.range ((processData tokZero docsW).filter (fun r => r.doc_id == 0)).length) ∧
    (recAt (processData tokZero docsW) 3).doc_id = 0 :=
  ⟨(claim1_unit_structure tokZero docsW 0).1,
   (claim1_unit_structure tokZero docsW 0).2.2 0 3 6 (by decide) (by decide)
     (by decide) (by decide) (by decide)⟩

/-! ### Claims C2 and C3: the length gate and the rendered sentences -/

/-- Claim C2: a (document, method) unit is all-or-nothing. If any of
its rendered sentences has token count at least the fixed threshold
1024 (the constant used whatever the tokenizer backend is), the unit
contributes no records and leaves the unit counter unchanged;
otherwise its records are appended, the counter is incremented, and
every kept record's sentence has token count strictly below 1024. -/
theorem claim2_all_or_nothing (tok : String → Nat) (title : String)
    (acc : List SentenceInfo × Nat) (g : String × List Step) :
    ((∃ s ∈ unitSentences title g.1 g.2, 1024 ≤ tok s) →
      processUnitStep tok title acc g = acc) ∧
    ((∀ s ∈ unitSentences title g.1 g.2, tok s < 1024) →
      processUnitStep tok title acc g =
        (acc.1 ++ buildRecords acc.2 (unitSentences title g.1 g.2), acc.2 + 1) ∧
      ∀ r ∈ buildRecords acc.2 (unitSentences title g.1 g.2), tok r.sentence < 1024) := by
  constructor
  · intro hbad
    obtain ⟨s, hs, hge⟩ := hbad
    have hall : ¬(((unitSentences title g.1 g.2).all fun s => tok s < 1024) = true) := by
      rw [List.all_eq_true]
      intro hall
      have := hall s hs
      simp only [decide_eq_true_eq] at this
      omega
    unfold processUnitStep
    rw [if_neg hall]
  · intro hgood
    have hall : (((unitSentences title g.1 g.2).all fun s => tok s < 1024) = true) := by
      rw [List.all_eq_true]
      intro s hs
      simp only [decide_eq_true_eq]
      exact hgood s hs
    constructor
    · unfold processUnitStep
      rw [if_pos hall]
    · intro r hr
      have hmem := (mem_buildRecords hr).2.2
      exact hgood r.sentence (List.mem_of_mem_filter hmem)

/-- Witness for claim C2: on a concrete unit, a tokenizer reporting
2000 tokens suppresses the unit, and one reporting 0 tokens appends
its records and bumps the counter. -/
theorem claim2_witness :
    processUnitStep tokBig "T" ([], 0) ("M", [⟨"M", "Go!", "Run."⟩]) = ([], 0) ∧
    processUnitStep tokZero "T" ([], 0) ("M", [⟨"M", "Go!", "Run."⟩]) =
      (([] : List SentenceInfo) ++
        buildRecords 0 (unitSentences "T" "M" [⟨"M", "Go!", "Run."⟩]), 0 + 1) :=
  ⟨(claim2_all_or_nothing tokBig "T" ([], 0) ("M", [⟨"M", "Go!", "Run."⟩])).1
    (by refine ⟨titleSentence "T", ?_, by decide⟩; decide),
   ((claim2_all_or_nothing tokZero "T" ([], 0) ("M", [⟨"M", "Go!", "Run."⟩])).2
    (by intro s _; unfold tokZero; omega)).1⟩

/-- Counterexample to claim C3 as stated: when a step's body contains
the four-character pattern `". . "` away from the end of the last
fragment, the source replaces that occurrence too, while the claim
collapses only the trailing duplicated delimiter. With body
`"A. . B."` the source renders the fragment `"A . B . "` whereas the
claim's construction renders `"A. . B . "`. -/
theorem claim3_counterexample :
    unitSentences "T" "M" [⟨"M", "Go!", "A. . B."⟩] ≠
      specUnitSentences "T" "M" [⟨"M", "Go!", "A. . B."⟩] := by
  decide

/-- Claim C3 (amended): the candidate sentence list is the title
sentence, the method sentence, then per step in order the directions
sentence followed by the step's body split on `".  "` with each
fragment suffixed `" . "`; and when the last fragment ends with
`". . "`, every occurrence of `". . "` in it (leftmost first, without
overlap) is replaced by `" . "`. -/
theorem claim3_unit_sentences (title m : String) (steps : List Step) :
    unitSentences title m steps = specUnitSentencesCollapseAll title m steps :=
  unitSentences_eq title m steps

/-! ### Claims C4 and C5: the pairwise (discourse) strategy -/

theorem get?_recAt {l : List SentenceInfo} {i : Nat} (h : i < l.length) :
    l.get? i = some (recAt l i) := by
  rw [recAt_eq_getElem h, List.get?_eq_getElem?, List.getElem?_eq_getElem h]

theorem pyGet_natCast {l : List SentenceInfo} {n : Nat} (h : n < l.length) :
    pyGet l (n : Int) = some (recAt l n) := by
  unfold pyGet
  rw [if_pos (by omega), if_pos (by omega)]
  simp

theorem window_resolve {l : List SentenceInfo} (hinv : FlatOk l) {index : Nat}
    (hidx : index < l.length) (k : Nat) :
    ∃ tN tp1N : Nat,
      tN ≤ tp1N ∧ tp1N < l.length ∧
      ((index : Int) + ((windowPair (recAt l index) k).1 -
        ((recAt l index).sentence_id : Int)) = (tN : Int)) ∧
      ((index : Int) + ((windowPair (recAt l index) k).2 -
        ((recAt l index).sentence_id : Int)) = (tp1N : Int)) ∧
      (recAt l tN).doc_id = (recAt l index).doc_id ∧
      (recAt l tp1N).doc_id = (recAt l index).doc_id ∧
      pyGet l ((index : Int) + ((windowPair (recAt l index) k).1 -
        ((recAt l index).sentence_id : Int))) = some (recAt l tN) ∧
      pyGet l ((index : Int) + ((windowPair (recAt l index) k).2 -
        ((recAt l index).sentence_id : Int))) = some (recAt l tp1N) ∧
      (windowPair (recAt l index) k).1 ≤ (windowPair (recAt l index) k).2 := by
  obtain ⟨hR1, _⟩ := hinv
  obtain ⟨hsle, hst, hlen, hall⟩ := hR1 index hidx
  set r := recAt l index with hr
  have h2 : (windowPair r k).2 =
      min ((r.total_doc_sentences : Int) - 1) ((r.sentence_id : Int) + (k : Int)) := rfl
  have h1 : (windowPair r k).1 = max 0 ((windowPair r k).2 - (k : Int)) := rfl
  have hmin1 : (windowPair r k).2 ≤ (r.total_doc_sentences : Int) - 1 :=
    h2 ▸ min_le_left _ _
  have hmin3 : 0 ≤ (windowPair r k).2 := by
    rw [h2]
    refine le_min ?_ ?_ <;> omega
  have hmax1 : 0 ≤ (windowPair r k).1 := h1 ▸ le_max_left _ _
  have hmax2 : (windowPair r k).1 ≤ (windowPair r k).2 := by
    rw [h1]
    exact max_le hmin3 (by omega)
  have htb : (windowPair r k).1.toNat < r.total_doc_sentences := by omega
  have htp1b : (windowPair r k).2.toNat < r.total_doc_sentences := by omega
  obtain ⟨hdt, _, _⟩ := hall (windowPair r k).1.toNat htb
  obtain ⟨hdtp1, _, _⟩ := hall (windowPair r k).2.toNat htp1b
  have hct : (index : Int) + ((windowPair r k).1 - (r.sentence_id : Int)) =
      ((index - r.sentence_id + (windowPair r k).1.toNat : Nat) : Int) := by omega
  have hctp1 : (index : Int) + ((windowPair r k).2 - (r.sentence_id : Int)) =
      ((index - r.sentence_id + (windowPair r k).2.toNat : Nat) : Int) := by omega
  have hltp1 : index - r.sentence_id + (windowPair r k).2.toNat < l.length := by omega
  have hlt : index - r.sentence_id + (windowPair r k).1.toNat < l.length := by omega
  refine ⟨index - r.sentence_id + (windowPair r k).1.toNat,
    index - r.sentence_id + (windowPair r k).2.toNat,
    by omega, hltp1, hct, hctp1, hdt, hdtp1, ?_, ?_, hmax2⟩
  · rw [hct]
    exact pyGet_natCast hlt
  · rw [hctp1]
    exact pyGet_natCast hltp1

theorem discourseItem_eq {l : List SentenceInfo} {k : Nat} (oneHot : Bool) (label : Nat)
    {index : Nat} {utt yt ytp1 : SentenceInfo}
    (h0 : l.get? index = some utt)
    (h1 : pyGet l ((index : Int) + ((windowPair utt k).1 - (utt.sentence_id : Int)))
      = some yt)
    (h2 : pyGet l ((index : Int) + ((windowPair utt k).2 - (utt.sentence_id : Int)))
      = some ytp1)
    (h3 : yt.doc_id = ytp1.doc_id) :
    discourseItem l k oneHot label index = some
      { y_t := if label ≠ 0 then yt.sentence else ytp1.sentence
        y_tp1 := if label ≠ 0 then ytp1.sentence else yt.sentence
        label := if oneHot then
            LabelOut.vec (if label = 0 then 1 else 0) (if label = 1 then 1 else 0)
          else LabelOut.scalar label
        idx := index
        t := (index : Int) + ((windowPair utt k).1 - (utt.sentence_id : Int))
        tp1 := (index : Int) + ((windowPair utt k).2 - (utt.sentence_id : Int)) } := by
  unfold discourseItem
  rw [h0]
  dsimp only
  rw [h1, h2]
  dsimp only
  rw [if_pos h3]

/-- Claim C4: for every constructed dataset, valid index, and window
size `k ≥ 1`, the pairwise strategy's two resolved positions are
in-bounds, ordered (`t ≤ tp1` both in the window formula and as
resolved global indices), and belong to the same unit, so the
same-unit assertion never fires and a result is returned. -/
theorem claim4_discourse_safe (tok : String → Nat) (docs : List RawDoc) (k : Nat)
    (oneHot : Bool) (label : Nat) (index : Nat) (hk : 1 ≤ k)
    (hidx : index < (processData tok docs).length) :
    ∃ (tN tp1N : Nat) (res : DiscourseResult),
      tN ≤ tp1N ∧ tp1N < (processData tok docs).length ∧
      (recAt (processData tok docs) tN).doc_id =
        (recAt (processData tok docs) tp1N).doc_id ∧
      discourseItem (processData tok docs) k oneHot label index = some res ∧
      res.t = (tN : Int) ∧ res.tp1 = (tp1N : Int) ∧
      (windowPair (recAt (processData tok docs) index) k).1 ≤
        (windowPair (recAt (processData tok docs) index) k).2 := by
  obtain ⟨tN, tp1N, hle, hlt, hct, hctp1, hdt, hdtp1, hgt, hgtp1, htle⟩ :=
    window_resolve (flatOk_processData tok docs) hidx k
  refine ⟨tN, tp1N, _,
    hle, hlt, by rw [hdt, hdtp1],
    discourseItem_eq oneHot label (get?_recAt hidx) hgt hgtp1 (by rw [hdt, hdtp1]),
    ?_, ?_, htle⟩
  · exact hct
  · exact hctp1

/-- Witness for claim C4 on the concrete corpus. -/
theorem claim4_witness :
    ∃ (tN tp1N : Nat) (res : DiscourseResult),
      tN ≤ tp1N ∧ tp1N < (processData tokZero docsW).length ∧
      (recAt (processData tokZero docsW) tN).doc_id =
        (recAt (processData tokZero docsW) tp1N).doc_id ∧
      discourseItem (processData tokZero docsW) 1 false 1 0 = some res ∧
      res.t = (tN : Int) ∧ res.tp1 = (tp1N : Int) ∧
      (windowPair (recAt (processData tokZero docsW) 0) 1).1 ≤
        (windowPair (recAt (processData tokZero docsW) 0) 1).2 :=
  claim4_discourse_safe tokZero docsW 1 false 1 0 (by decide) (by decide)

/-- Claim C5: for every constructed dataset and valid index, a
pairwise sample returns the two resolved sentence texts in (earlier,
later) order when the drawn binary label is 1 (in order) and swapped
when it is 0, together with the label rendered as a scalar or one-hot
vector per the configured flag and the two resolved global indices. -/
theorem claim5_discourse_output (tok : String → Nat) (docs : List RawDoc) (k : Nat)
    (oneHot : Bool) (label : Nat) (index : Nat) (hlab : label ≤ 1)
    (hidx : index < (processData tok docs).length) :
    ∃ tN tp1N : Nat, tN ≤ tp1N ∧
      discourseItem (processData tok docs) k oneHot label index = some
        { y_t := if label = 1 then (recAt (processData tok docs) tN).sentence
            else (recAt (processData tok docs) tp1N).sentence
          y_tp1 := if label = 1 then (recAt (processData tok docs) tp1N).sentence
            else (recAt (processData tok docs) tN).sentence
          label := if oneHot then
              LabelOut.vec (if label = 0 then 1 else 0) (if label = 1 then 1 else 0)
            else LabelOut.scalar label
          idx := index
          t := (tN : Int)
          tp1 := (tp1N : Int) } := by
  obtain ⟨tN, tp1N, hle, hlt, hct, hctp1, hdt, hdtp1, hgt, hgtp1, htle⟩ :=
    window_resolve (flatOk_processData tok docs) hidx k
  refine ⟨tN, tp1N, hle, ?_⟩
  have heq := discourseItem_eq oneHot label
    (get?_recAt hidx) hgt hgtp1 (by rw [hdt, hdtp1])
  rw [heq, hct, hctp1]
  rcases Nat.le_one_iff_eq_zero_or_eq_one.mp hlab with rfl | rfl <;> simp

/-- Witness for claim C5 on the concrete corpus, with the
out-of-order label and one-hot rendering. -/
theorem claim5_witness :
    ∃ tN tp1N : Nat, tN ≤ tp1N ∧
      discourseItem (processData tokZero docsW) 1 true 0 3 = some
        { y_t := if 0 = 1 then (recAt (processData tokZero docsW) tN).sentence
            else (recAt (processData tokZero docsW) tp1N).sentence
          y_tp1 := if 0 = 1 then (recAt (processData tokZero docsW) tp1N).sentence
            else (recAt (processData tokZero docsW) tN).sentence
          label := if true then
              LabelOut.vec (if 0 = 0 then 1 else 0) (if 0 = 1 then 1 else 0)
            else LabelOut.scalar 0
          idx := 3
          t := (tN : Int)
          tp1 := (tp1N : Int) } :=
  claim5_discourse_output tokZero docsW 1 true 0 3 (by decide) (by decide)

/-! ### Claim C6: the triplet strategy -/

theorem tripletItem_eq {l : List SentenceInfo} {c1 c2 index : Nat}
    {utt0 utt y0 yt : SentenceInfo}
    (h0 : l.get? index = some utt0)
    (h1 : l.get? (tripletAdvance utt0.sentence_id index) = some utt)
    (hg : ((if c2 < c1 then c2 else c1) < (if c2 < c1 then c1 else c2) ∧
      (if c2 < c1 then c1 else c2) < utt.sentence_id))
    (h2 : pyGet l ((tripletAdvance utt0.sentence_id index : Int) -
      (utt.sentence_id : Int) + ((if c2 < c1 then c2 else c1 : Nat) : Int)) = some y0)
    (h3 : pyGet l ((tripletAdvance utt0.sentence_id index : Int) -
      (utt.sentence_id : Int) + ((if c2 < c1 then c1 else c2 : Nat) : Int)) = some yt) :
    tripletItem l c1 c2 index = some
      { y_0 := y0.sentence, y_t := yt.sentence, y_T := utt.sentence
        t_ := if c2 < c1 then c2 else c1, t := if c2 < c1 then c1 else c2
        T := utt.sentence_id, total_t := utt.total_doc_sentences } := by
  unfold tripletItem
  rw [h0]
  dsimp only
  rw [h1]
  dsimp only
  rw [if_pos hg, h2, h3]

theorem tripletAdvance_spec {l : List SentenceInfo} (hinv : FlatOk l)
    (h3 : UnitsAtLeastThree l) {index : Nat} (hidx : index < l.length) :
    tripletAdvance (recAt l index).sentence_id index < l.length ∧
    2 ≤ (recAt l (tripletAdvance (recAt l index).sentence_id index)).sentence_id ∧
    (recAt l (tripletAdvance (recAt l index).sentence_id index)).doc_id =
      (recAt l index).doc_id ∧
    (recAt l (tripletAdvance (recAt l index).sentence_id index)).total_doc_sentences =
      (recAt l index).total_doc_sentences ∧
    tripletAdvance (recAt l index).sentence_id index -
        (recAt l (tripletAdvance (recAt l index).sentence_id index)).sentence_id =
      index - (recAt l index).sentence_id := by
  obtain ⟨hR1, _⟩ := hinv
  obtain ⟨hsle, hst, hlen, hall⟩ := hR1 index hidx
  have htot3 := h3 index hidx
  by_cases hs0 : (recAt l index).sentence_id = 0
  · have hadv : tripletAdvance (recAt l index).sentence_id index = index + 2 := by
      unfold tripletAdvance
      rw [if_pos hs0]
    obtain ⟨hd2, hs2, ht2⟩ := hall 2 (by omega)
    have he : index - (recAt l index).sentence_id + 2 = index + 2 := by omega
    rw [he] at hd2 hs2 ht2
    rw [hadv]
    exact ⟨by omega, by omega, hd2, ht2, by omega⟩
  · by_cases hs1 : (recAt l index).sentence_id = 1
    · have hadv : tripletAdvance (recAt l index).sentence_id index = index + 1 := by
        unfold tripletAdvance
        rw [if_neg hs0, if_pos hs1]
      obtain ⟨hd2, hs2, ht2⟩ := hall 2 (by omega)
      have he : index - (recAt l index).sentence_id + 2 = index + 1 := by omega
      rw [he] at hd2 hs2 ht2
      rw [hadv]
      exact ⟨by omega, by omega, hd2, ht2, by omega⟩
    · have hadv : tripletAdvance (recAt l index).sentence_id index = index := by
        unfold tripletAdvance
        rw [if_neg hs0, if_neg hs1]
      rw [hadv]
      exact ⟨hidx, by omega, rfl, rfl, rfl⟩

/-- Claim C6: for every constructed dataset and valid index, the
initial advance of the triplet strategy (by 2 when `sentence_id` is 0,
by 1 when it is 1) lands on a record with `sentence_id ≥ 2` of the
same unit, so at least two prior positions exist inside the unit; and
for any two distinct draws below that `sentence_id`, the sample
satisfies `0 ≤ t1 < t2 < T` strictly, `T` lies inside the unit, and
the three resolved records share one `doc_id`. -/
theorem claim6_triplet_order (tok : String → Nat) (docs : List RawDoc) (c1 c2 index : Nat)
    (hidx : index < (processData tok docs).length)
    (hc1 : c1 < (recAt (processData tok docs)
        (tripletAdvance (recAt (processData tok docs) index).sentence_id index)).sentence_id)
    (hc2 : c2 < (recAt (processData tok docs)
        (tripletAdvance (recAt (processData tok docs) index).sentence_id index)).sentence_id)
    (hne : c1 ≠ c2) :
    ∃ res : TripletResult,
      tripletItem (processData tok docs) c1 c2 index = some res ∧
      res.t_ < res.t ∧ res.t < res.T ∧ 2 ≤ res.T ∧ res.T < res.total_t ∧
      (recAt (processData tok docs) (tripletAdvance
          (recAt (processData tok docs) index).sentence_id index - res.T + res.t_)).doc_id =
        (recAt (processData tok docs) (tripletAdvance
          (recAt (processData tok docs) index).sentence_id index)).doc_id ∧
      (recAt (processData tok docs) (tripletAdvance
          (recAt (processData tok docs) index).sentence_id index - res.T + res.t)).doc_id =
        (recAt (processData tok docs) (tripletAdvance
          (recAt (processData tok docs) index).sentence_id index)).doc_id ∧
      res.y_0 = (recAt (processData tok docs) (tripletAdvance
          (recAt (processData tok docs) index).sentence_id index - res.T + res.t_)).sentence ∧
      res.y_t = (recAt (processData tok docs) (tripletAdvance
          (recAt (processData tok docs) index).sentence_id index - res.T + res.t)).sentence ∧
      res.y_T = (recAt (processData tok docs) (tripletAdvance
          (recAt (processData tok docs) index).sentence_id index)).sentence := by
  have hinv := flatOk_processData tok docs
  have h3 := unitsAtLeastThree_processData tok docs
  obtain ⟨hadvlt, hsid2, hdocA, htotA, hstartA⟩ := tripletAdvance_spec hinv h3 hidx
  obtain ⟨hR1, _⟩ := hinv
  set l := processData tok docs with hldef
  set adv := tripletAdvance (recAt l index).sentence_id index with hadv
  obtain ⟨hsle', hst', hlen', hall'⟩ := hR1 adv hadvlt
  have hg : ((if c2 < c1 then c2 else c1) < (if c2 < c1 then c1 else c2) ∧
      (if c2 < c1 then c1 else c2) < (recAt l adv).sentence_id) := by
    rcases lt_or_ge c2 c1 with hcc | hcc
    · rw [if_pos hcc, if_pos hcc]
      exact ⟨hcc, hc1⟩
    · rw [if_neg (not_lt.mpr hcc), if_neg (not_lt.mpr hcc)]
      exact ⟨by omega, hc2⟩
  have ht1T : (if c2 < c1 then c2 else c1) < (recAt l adv).sentence_id := by
    rcases lt_or_ge c2 c1 with hcc | hcc
    · rw [if_pos hcc]; exact hc2
    · rw [if_neg (not_lt.mpr hcc)]; exact hc1
  have ht2T : (if c2 < c1 then c1 else c2) < (recAt l adv).sentence_id := hg.2
  have hc1' : (adv : Int) - ((recAt l adv).sentence_id : Int) +
      ((if c2 < c1 then c2 else c1 : Nat) : Int) =
      ((adv - (recAt l adv).sentence_id + (if c2 < c1 then c2 else c1) : Nat) : Int) := by
    omega
  have hc2' : (adv : Int) - ((recAt l adv).sentence_id : Int) +
      ((if c2 < c1 then c1 else c2 : Nat) : Int) =
      ((adv - (recAt l adv).sentence_id + (if c2 < c1 then c1 else c2) : Nat) : Int) := by
    omega
  have hb1 : adv - (recAt l adv).sentence_id + (if c2 < c1 then c2 else c1) < l.length := by
    omega
  have hb2 : adv - (recAt l adv).sentence_id + (if c2 < c1 then c1 else c2) < l.length := by
    omega
  have hp1 := pyGet_natCast hb1
  have hp2 := pyGet_natCast hb2
  refine ⟨_, tripletItem_eq (get?_recAt hidx) (get?_recAt hadvlt) hg
    (by rw [hc1']; exact hp1) (by rw [hc2']; exact hp2), hg.1, hg.2, hsid2, hst', ?_, ?_, ?_, ?_, ?_⟩
  · exact (hall' (if c2 < c1 then c2 else c1) (by omega)).1
  · exact (hall' (if c2 < c1 then c1 else c2) (by omega)).1
  · rfl
  · rfl
  · rfl

/-- Witness for claim C6 on the concrete corpus: the start of the
second unit advances by two and still yields an ordered triplet. -/
theorem claim6_witness :
    ∃ res : TripletResult,
      tripletItem (processData tokZero docsW) 0 1 7 = some res ∧
      res.t_ < res.t ∧ res.t < res.T ∧ 2 ≤ res.T ∧ res.T < res.total_t ∧
      (recAt (processData tokZero docsW) (tripletAdvance
          (recAt (processData tokZero docsW) 7).sentence_id 7 - res.T + res.t_)).doc_id =
        (recAt (processData tokZero docsW) (tripletAdvance
          (recAt (processData tokZero docsW) 7).sentence_id 7)).doc_id ∧
      (recAt (processData tokZero docsW) (tripletAdvance
          (recAt (processData tokZero docsW) 7).sentence_id 7 - res.T + res.t)).doc_id =
        (recAt (processData tokZero docsW) (tripletAdvance
          (recAt (processData tokZero docsW) 7).sentence_id 7)).doc_id ∧
      res.y_0 = (recAt (processData tokZero docsW) (tripletAdvance
          (recAt (processData tokZero docsW) 7).sentence_id 7 - res.T + res.t_)).sentence ∧
      res.y_t = (recAt (processData tokZero docsW) (tripletAdvance
          (recAt (processData tokZero docsW) 7).sentence_id 7 - res.T + res.t)).sentence ∧
      res.y_T = (recAt (processData tokZero docsW) (tripletAdvance
          (recAt (processData tokZero docsW) 7).sentence_id 7)).sentence :=
  claim6_triplet_order tokZero docsW 0 1 7 (by decide) (by decide) (by decide) (by decide)

/-! ### Claims C7 and C8: the windowed (TPK) strategy -/

theorem tmLag_eq {l : List SentenceInfo} {index lag : Nat} (hidx : index < l.length) :
    tmLag l (index : Int) lag = some
      (if lag ≤ index ∧ (recAt l (index - lag)).doc_id = (recAt l index).doc_id
       then recAt l (index - lag) else recAt l index) := by
  unfold tmLag
  rw [pyGet_natCast hidx]
  dsimp only
  by_cases h1 : lag ≤ index
  · have hneg : ¬((index : Int) - (lag : Int) < 0) := by omega
    rw [if_neg hneg]
    have hcast : (index : Int) - (lag : Int) = ((index - lag : Nat) : Int) := by omega
    rw [hcast, pyGet_natCast (show index - lag < l.length by omega)]
    dsimp only
    by_cases h2 : (recAt l (index - lag)).doc_id = (recAt l index).doc_id
    · rw [if_neg (not_not.mpr h2.symm), if_pos ⟨h1, h2⟩]
    · rw [if_pos (fun he => h2 he.symm), if_neg (fun hc => h2 hc.2)]
  · have hneg : (index : Int) - (lag : Int) < 0 := by omega
    rw [if_pos hneg, if_neg (fun hc => h1 hc.1)]

/-- Claim C8: in the TPK strategy, for each lag in 1, 2, 3, the
backward-lag record is the record at `index - lag` exactly when
`index - lag ≥ 0` and that record shares its `doc_id` with the record
at `index`; in every other case it falls back to the record at
`index` itself. -/
theorem claim8_tpk_backward_lags (l : List SentenceInfo) (index lag : Nat)
    (hidx : index < l.length) (hlag : lag = 1 ∨ lag = 2 ∨ lag = 3) :
    tmLag l (index : Int) lag = some
      (if lag ≤ index ∧ (recAt l (index - lag)).doc_id = (recAt l index).doc_id
       then recAt l (index - lag) else recAt l index) :=
  tmLag_eq hidx

/-- Witness for claim C8: with lag 2 at index 1 the lag would cross
the start of the sequence, so the current record is reused. -/
theorem claim8_witness :
    tmLag (processData tokZero docsW) ((1 : Nat) : Int) 2 = some
      (if 2 ≤ 1 ∧ (recAt (processData tokZero docsW) (1 - 2)).doc_id =
          (recAt (processData tokZero docsW) 1).doc_id
       then recAt (processData tokZero docsW) (1 - 2)
       else recAt (processData tokZero docsW) 1) :=
  claim8_tpk_backward_lags (processData tokZero docsW) 1 2 (by decide) (by decide)

theorem tpkItem_k1_eq {l : List SentenceInfo} {index : Nat}
    {r0 r1 yt ytpk m1 m2 m3 : SentenceInfo} {idx : Int}
    (h0 : l.get? index = some r0) (h1 : l.get? (index + 1) = some r1)
    (hif : (if r0.doc_id ≠ r1.doc_id then (index : Int) - 1 else (index : Int)) = idx)
    (h2 : pyGet l idx = some yt) (h3 : pyGet l (idx + 1) = some ytpk)
    (h4 : tmLag l idx 1 = some m1) (h5 : tmLag l idx 2 = some m2)
    (h6 : tmLag l idx 3 = some m3) :
    tpkItem l 1 index = some
      { y_t := yt.sentence, y_tm1 := m1.sentence, y_tm2 := m2.sentence
        y_tm3 := m3.sentence, y_tpk := ytpk.sentence } := by
  unfold tpkItem
  rw [if_pos rfl, h0, h1]
  dsimp only
  rw [hif, h2, h3, h4, h5, h6]

/-- Claim C7: for k = 1 the TPK strategy steps the index back by one
exactly when the records at `index` and `index + 1` belong to
different units, and for every valid index whose unit has at least two
records the emitted `y_t` and `y_tpk` come from records that share
their `doc_id` and are adjacent in `sentence_id`. -/
theorem claim7_tpk_k1 (tok : String → Nat) (docs : List RawDoc) (index : Nat)
    (hidx : index + 1 < (processData tok docs).length)
    (hlen2 : 2 ≤ (recAt (processData tok docs) index).total_doc_sentences) :
    ∃ (j : Nat) (res : TPKResult),
      ((recAt (processData tok docs) index).doc_id ≠
          (recAt (processData tok docs) (index + 1)).doc_id → j + 1 = index) ∧
      ((recAt (processData tok docs) index).doc_id =
          (recAt (processData tok docs) (index + 1)).doc_id → j = index) ∧
      tpkItem (processData tok docs) 1 index = some res ∧
      res.y_t = (recAt (processData tok docs) j).sentence ∧
      res.y_tpk = (recAt (processData tok docs) (j + 1)).sentence ∧
      (recAt (processData tok docs) (j + 1)).doc_id =
        (recAt (processData tok docs) j).doc_id ∧
      (recAt (processData tok docs) (j + 1)).sentence_id =
        (recAt (processData tok docs) j).sentence_id + 1 := by
  obtain ⟨hR1, hR2⟩ := flatOk_processData tok docs
  set l := processData tok docs with hldef
  have hidx0 : index < l.length := by omega
  obtain ⟨hsle, hst, hlen, hall⟩ := hR1 index hidx0
  have hnext : (recAt l index).sentence_id + 1 < (recAt l index).total_doc_sentences →
      (recAt l (index + 1)).doc_id = (recAt l index).doc_id := by
    intro hlt
    have hd := (hall ((recAt l index).sentence_id + 1) hlt).1
    have he : index - (recAt l index).sentence_id + ((recAt l index).sentence_id + 1)
        = index + 1 := by omega
    rw [he] at hd
    exact hd
  by_cases hd : (recAt l index).doc_id = (recAt l (index + 1)).doc_id
  · have hadj : (recAt l (index + 1)).sentence_id = (recAt l index).sentence_id + 1 :=
      (hR2 index hidx).mp hd.symm
    have hcast : (index : Int) + 1 = ((index + 1 : Nat) : Int) := by omega
    refine ⟨index, _, fun hne => absurd hd hne, fun _ => rfl,
      tpkItem_k1_eq (get?_recAt hidx0) (get?_recAt hidx)
        (if_neg (not_ne_iff.mpr hd)) (pyGet_natCast hidx0)
        (by rw [hcast]; exact pyGet_natCast hidx)
        (tmLag_eq hidx0) (tmLag_eq hidx0) (tmLag_eq hidx0),
      rfl, rfl, hd.symm, hadj⟩
  · have hsid1 : 1 ≤ (recAt l index).sentence_id := by
      rcases Nat.lt_or_ge ((recAt l index).sentence_id + 1)
          (recAt l index).total_doc_sentences with hlt | hge
      · exact absurd (hnext hlt).symm hd
      · omega
    have hj1 : index - 1 + 1 = index := by omega
    have hjlt : index - 1 < l.length := by omega
    have hdprev : (recAt l index).doc_id = (recAt l (index - 1)).doc_id := by
      have hdd := (hall ((recAt l index).sentence_id - 1) (by omega)).1
      have he : index - (recAt l index).sentence_id +
          ((recAt l index).sentence_id - 1) = index - 1 := by omega
      rw [he] at hdd
      exact hdd.symm
    have hadj : (recAt l index).sentence_id = (recAt l (index - 1)).sentence_id + 1 := by
      have hiff := hR2 (index - 1) (by omega)
      rw [hj1] at hiff
      exact hiff.mp hdprev
    have hifeq : (if (recAt l index).doc_id ≠ (recAt l (index + 1)).doc_id
        then (index : Int) - 1 else (index : Int)) = ((index - 1 : Nat) : Int) := by
      rw [if_pos hd]
      omega
    have hcast : ((index - 1 : Nat) : Int) + 1 = ((index - 1 + 1 : Nat) : Int) := by omega
    refine ⟨index - 1, _, fun _ => hj1, fun he => absurd he hd,
      tpkItem_k1_eq (get?_recAt hidx0) (get?_recAt hidx) hifeq (pyGet_natCast hjlt)
        (by rw [hcast]; exact pyGet_natCast (by omega))
        (tmLag_eq hjlt) (tmLag_eq hjlt) (tmLag_eq hjlt),
      rfl, rfl, ?_, ?_⟩
    · rw [hj1]
      exact hdprev
    · rw [hj1]
      exact hadj

/-- Witness for claim C7 at the last record of the first unit, where
the step-back fires. -/
theorem claim7_witness :
    ∃ (j : Nat) (res : TPKResult),
      ((recAt (processData tokZero docsW) 6).doc_id ≠
          (recAt (processData tokZero docsW) 7).doc_id → j + 1 = 6) ∧
      ((recAt (processData tokZero docsW) 6).doc_id =
          (recAt (processData tokZero docsW) 7).doc_id → j = 6) ∧
      tpkItem (processData tokZero docsW) 1 6 = some res ∧
      res.y_t = (recAt (processData tokZero docsW) j).sentence ∧
      res.y_tpk = (recAt (processData tokZero docsW) (j + 1)).sentence ∧
      (recAt (processData tokZero docsW) (j + 1)).doc_id =
        (recAt (processData tokZero docsW) j).doc_id ∧
      (recAt (processData tokZero docsW) (j + 1)).sentence_id =
        (recAt (processData tokZero docsW) j).sentence_id + 1 :=
  claim7_tpk_k1 tokZero docsW 6 (by decide) (by decide)

/-! ### Claims C10 and C9: dataset length and seeding -/

/-- Claim C10: the reported dataset length is the number of flattened
records minus one, so the final record is never a queried index, and
for every index below the reported length the forward lookup at
`index + 1` made by the TPK strategy with k = 1 stays in bounds. -/
theorem claim10_len_guard (tok : String → Nat) (docs : List RawDoc) (i : Nat)
    (hi : (i : Int) < wikihowLen (processData tok docs)) :
    wikihowLen (processData tok docs) = ((processData tok docs).length : Int) - 1 ∧
    i + 1 < (processData tok docs).length ∧
    i ≠ (processData tok docs).length - 1 ∧
    ((processData tok docs).get? i).isSome = true ∧
    ((processData tok docs).get? (i + 1)).isSome = true := by
  unfold wikihowLen at hi ⊢
  have h1 : i + 1 < (processData tok docs).length := by omega
  refine ⟨rfl, h1, by omega, ?_, ?_⟩
  · rw [get?_recAt (by omega)]
    rfl
  · rw [get?_recAt h1]
    rfl

/-- Witness for claim C10 on the concrete corpus. -/
theorem claim10_witness :
    wikihowLen (processData tokZero docsW) = ((processData tokZero docsW).length : Int) - 1 ∧
    5 + 1 < (processData tokZero docsW).length ∧
    5 ≠ (processData tokZero docsW).length - 1 ∧
    ((processData tokZero docsW).get? 5).isSome = true ∧
    ((processData tokZero docsW).get? (5 + 1)).isSome = true :=
  claim10_len_guard tokZero docsW 5 (by decide)

/-- Claim C9 fails on the code: the constructor stores the seed but
never seeds the process-wide generator, so its effect on the generator
state is the identity for every seed, and two runs with the same seed
but different ambient generator states draw different labels and
produce different pairwise samples on the same corpus and index. -/
theorem claim9_seed_unused :
    (∀ (seed : Nat) (g : RNGState), wikihowInitRNG seed g = g) ∧
    wikihowInitRNG 1 [0] = [0] ∧ wikihowInitRNG 1 [1] = [1] ∧
    discourseLabelDraw 1 [0] ≠ discourseLabelDraw 1 [1] ∧
    discourseItem (processData tokZero docsW) 1 false (discourseLabelDraw 1 [0]) 0 ≠
      discourseItem (processData tokZero docsW) 1 false (discourseLabelDraw 1 [1]) 0 :=
  ⟨fun _ _ => rfl, rfl, rfl, by decide, by decide⟩
